import Mathlib

/-!
Shallow embedding of `quantum_lib/notations/from_array.py` and proofs about it.

Modelling conventions:
* Python strings are sequences of Unicode code points, modelled as `List Char`
  (`Str`); Python's clamped negative-end slice `s[:-3]` is `List.take (len - 3)`.
* Complex amplitudes are pairs of exact rationals (`Cq`); the source's IEEE-754
  `complex128` arithmetic is idealized as exact rational arithmetic.
* `np.linalg.norm` is a floating square root; we pass the norm as an explicit
  rational parameter `r`, pinned down in theorems by `0 ≤ r ∧ r ^ 2 = normSq v`.
* The threshold test `np.abs(a) > 1e-10` is rendered exactly as
  `(1e-10)^2 < |a|^2` on rationals, which is equivalent for nonnegative reals.
* Python renders a complex number under a fixed-point format spec as
  `<re><sign><abs im>j` (imaginary-unit suffix `j`), both parts rounded to the
  requested number of decimals with ties to even.
-/

namespace QuantumNotation

/-- Python strings modelled as lists of Unicode code points. -/
abbrev Str := List Char

/-- Character list of a Lean string literal. -/
def str (s : String) : Str := s.data

/-- A complex number with exact rational real and imaginary parts. -/
structure Cq where
  re : ℚ
  im : ℚ
deriving DecidableEq

/-- Squared magnitude of a complex number. -/
def magSq (c : Cq) : ℚ := c.re * c.re + c.im * c.im

/-- Squared Euclidean norm of an amplitude vector: the square of what
`np.linalg.norm(v)` computes. -/
def normSq (v : List Cq) : ℚ := (v.map magSq).sum

/-- Division of a complex number by a real scalar, componentwise
(numpy broadcasting of `array / scalar`). -/
def cdivR (c : Cq) (r : ℚ) : Cq := ⟨c.re / r, c.im / r⟩

/-- Embedding of line 18, `superposition_array / np.linalg.norm(superposition_array)`:
every element is divided by the Euclidean norm `r` of the whole vector. -/
def rescale (v : List Cq) (r : ℚ) : List Cq := v.map (fun c => cdivR c r)

/-- Squared negligibility threshold `(1e-10)^2`. -/
def threshSq : ℚ := 1 / 10 ^ 20

/-- Round a rational to the nearest integer with ties to even, the rounding of
Python fixed-point formatting. -/
def roundHalfEven (q : ℚ) : ℤ :=
  if q - ⌊q⌋ < 1 / 2 then ⌊q⌋
  else if 1 / 2 < q - ⌊q⌋ then ⌊q⌋ + 1
  else if ⌊q⌋ % 2 = 0 then ⌊q⌋ else ⌊q⌋ + 1

/-- Decimal digits of a natural number. -/
def natDigits (n : ℕ) : Str := Nat.toDigits 10 n

/-- Left-pad a string with `'0'` to width `w` (clamped, never truncating). -/
def padLeftZeros (w : ℕ) (s : Str) : Str := List.replicate (w - s.length) '0' ++ s

/-- Python fixed-point formatting `format(q, '.{prec}f')` of a real number:
optional sign, integer digits, point, exactly `prec` fractional digits. -/
def fmtFixed (prec : ℕ) (q : ℚ) : Str :=
  (if q < 0 then ['-'] else [])
    ++ natDigits ((roundHalfEven (q * 10 ^ prec)).natAbs / 10 ^ prec)
    ++ '.' :: padLeftZeros prec (natDigits ((roundHalfEven (q * 10 ^ prec)).natAbs % 10 ^ prec))

/-- Python complex fixed-point formatting `format(c, '.{prec}f')`: fixed-point
real part, sign of the imaginary part, fixed-point absolute imaginary part, and
the suffix `j` (Python writes the imaginary unit as `j`). -/
def fmtComplex (prec : ℕ) (c : Cq) : Str :=
  fmtFixed prec c.re ++ (if c.im < 0 then ['-'] else ['+']) ++ fmtFixed prec |c.im| ++ ['j']

/-- Binary digits of a natural number (Python `format(n, 'b')`; `0` is "0"). -/
def binDigits (n : ℕ) : Str := Nat.toDigits 2 n

/-- Embedding of line 30, `format(i, f"0{num_qubits}b")`: binary representation
zero-padded on the left to width `w`. -/
def binaryPad (w : ℕ) (i : ℕ) : Str := padLeftZeros w (binDigits i)

/-- Fuel-driven floor of the base-2 logarithm; kernel-computable companion of
`Nat.log 2` (see `floorLog2_eq_log`). -/
def floorLog2Aux : ℕ → ℕ → ℕ
  | 0, _ => 0
  | fuel + 1, n => if n ≤ 1 then 0 else floorLog2Aux fuel (n / 2) + 1

/-- Embedding of line 21, `int(np.log2(len(superposition_array)))`: the floor of
the base-2 logarithm of the length. -/
def floorLog2 (n : ℕ) : ℕ := floorLog2Aux n n

/-- One rendered term of line 34, `f"{amplitude:.3f}|{binary_rep}⟩"`. -/
def diracTerm (nq : ℕ) (p : ℕ × Cq) : Str :=
  fmtComplex 3 p.2 ++ '|' :: (binaryPad nq p.1 ++ ['⟩'])

/-- Embedding of line 37's Python slice `s[:-3]`: strips the last three
characters and clamps to the empty string on short input. -/
def stripTrailingSep (s : Str) : Str := s.take (s.length - 3)

/-- Embedding of `array_to_dirac_notation` (lines 17-37): rescale by the norm
`r`, then accumulate `f"{amplitude:.3f}|{binary_rep}⟩ + "` for every enumerated
amplitude whose squared magnitude exceeds `threshSq`, and strip the trailing
separator with the clamped slice `[:-3]`. -/
def array_to_dirac_notation (v : List Cq) (r : ℚ) : Str :=
  stripTrailingSep
    (((rescale v r).enum).foldl
      (fun acc p =>
        if threshSq < magSq p.2 then
          acc ++ (diracTerm (floorLog2 (rescale v r).length) p ++ str " + ")
        else acc)
      [])

/-- Embedding of `array_to_matrix_representation` (lines 40-50):
`array.reshape((len(array), 1))` turns a length-`L` vector into an `L × 1`
row-major matrix, one singleton row per element. -/
def array_to_matrix_representation {α : Type} (v : List α) : List (List α) :=
  v.map (fun a => [a])

/-- An `IPython.display.Math` object, reduced to its string payload. -/
structure Math where
  payload : Str
deriving DecidableEq

/-- An `IPython.display.Latex` object, reduced to its string payload. -/
structure Latex where
  payload : Str
deriving DecidableEq

/-- Embedding of `array_to_dirac_latex` (lines 53-63). -/
def array_to_dirac_latex (v : List Cq) (r : ℚ) : Math :=
  ⟨str "Dirac Notation:" ++ array_to_dirac_notation v r⟩

/-- Embedding of `array_to_matrix_latex` (lines 66-81); `cstr` stands for the
host default numeric-to-string conversion `str(...)` applied to each entry of
the flattened column matrix. -/
def array_to_matrix_latex (cstr : Cq → Str) (v : List Cq) : Math :=
  ⟨str "Matrix Representation:"
    ++ (str "\\begin{bmatrix}\n"
      ++ List.intercalate (str "\\\\\n") ((array_to_matrix_representation v).flatten.map cstr)
      ++ str "\n\\end{bmatrix}")⟩

/-- Embedding of `array_to_dirac_and_matrix_latex` (lines 84-102). -/
def array_to_dirac_and_matrix_latex (cstr : Cq → Str) (v : List Cq) (r : ℚ) : Latex :=
  ⟨str "Matrix representation\n\\begin{bmatrix}\n"
    ++ List.intercalate (str "\\\\\n") ((array_to_matrix_representation v).flatten.map cstr)
    ++ str "\n\\end{bmatrix}\n"
    ++ (str "Dirac Notation:\n" ++ array_to_dirac_notation v r)⟩

/-- Embedding of `matrix_to_latex` (lines 104-124); `toStr` is the host default
element-to-string conversion and `pre` the optional leading string (default
`""` in the source). -/
def matrix_to_latex {α : Type} (toStr : α → Str) (m : List (List α)) (pre : Str) : Math :=
  ⟨(m.foldl
      (fun acc row => acc ++ List.intercalate (str " & ") (row.map toStr) ++ str " \\\\\n")
      (pre ++ str "\\begin{bmatrix}\n"))
    ++ str "\\end{bmatrix}"⟩

/-- Embedding of the inner `format_complex_number` of `complex_matrix_to_string`
(lines 134-142), with Python's 4-decimal fixed-point formatting. -/
def format_complex_number (x : Cq) : Str :=
  if x.re = 0 ∧ x.im = 0 then str "0"
  else if x.re = 0 then fmtFixed 4 x.im ++ ['i']
  else if x.im = 0 then fmtFixed 4 x.re
  else if 0 ≤ x.im then fmtFixed 4 x.re ++ str " + " ++ fmtFixed 4 x.im ++ ['i']
  else fmtFixed 4 x.re ++ str " - " ++ fmtFixed 4 (-x.im) ++ ['I']

/-- Embedding of `complex_matrix_to_string` (lines 126-147):
`np.vectorize(format_complex_number)` applies the formatter elementwise,
preserving the shape. -/
def complex_matrix_to_string (m : List (List Cq)) : List (List Str) :=
  m.map (fun row => row.map format_complex_number)

/-- Indices whose rescaled amplitude passes the negligibility test of line 28,
i.e. the basis indices that receive a term in the Dirac string. -/
def diracTermIndices (v : List Cq) (r : ℚ) : List ℕ :=
  (((rescale v r).enum).filter (fun p => decide (threshSq < magSq p.2))).map Prod.fst

/-- Specification-side restatement of the §4.5 formatting table, rows tried in
order, to be compared with the source's `format_complex_number`. -/
def specComplexLabel (x : Cq) : Str :=
  if x.re = 0 ∧ x.im = 0 then str "0"
  else if x.re = 0 ∧ x.im ≠ 0 then fmtFixed 4 x.im ++ ['i']
  else if x.re ≠ 0 ∧ x.im = 0 then fmtFixed 4 x.re
  else if x.re ≠ 0 ∧ 0 ≤ x.im then fmtFixed 4 x.re ++ str " + " ++ fmtFixed 4 x.im ++ ['i']
  else fmtFixed 4 x.re ++ str " - " ++ fmtFixed 4 (-x.im) ++ ['I']

/-- The 2-qubit computational basis state with amplitude 1 at index 0. -/
def e0 : List Cq := [⟨1, 0⟩, ⟨0, 0⟩, ⟨0, 0⟩, ⟨0, 0⟩]

/-- The 2-qubit computational basis state with amplitude 1 at index 1. -/
def e1 : List Cq := [⟨0, 0⟩, ⟨1, 0⟩, ⟨0, 0⟩, ⟨0, 0⟩]

/-- The 2-qubit computational basis state with amplitude 1 at index 2. -/
def e2 : List Cq := [⟨0, 0⟩, ⟨0, 0⟩, ⟨1, 0⟩, ⟨0, 0⟩]

/-- The 2-qubit computational basis state with amplitude 1 at index 3. -/
def e3 : List Cq := [⟨0, 0⟩, ⟨0, 0⟩, ⟨0, 0⟩, ⟨1, 0⟩]

/-- A vector with rational Euclidean norm `rEleven` whose second amplitude has
magnitude exactly `1e-11` (below the negligibility threshold after rescaling). -/
def vEleven : List Cq := [⟨(10 ^ 22 - 1) / (2 * 10 ^ 22), 0⟩, ⟨1 / 10 ^ 11, 0⟩]

/-- The exact Euclidean norm of `vEleven`. -/
def rEleven : ℚ := (10 ^ 22 + 1) / (2 * 10 ^ 22)

/-- A vector with rational Euclidean norm `rNine` whose second amplitude has
magnitude exactly `1e-9` (above the negligibility threshold after rescaling). -/
def vNine : List Cq := [⟨(10 ^ 18 - 1) / (2 * 10 ^ 18), 0⟩, ⟨1 / 10 ^ 9, 0⟩]

/-- The exact Euclidean norm of `vNine`. -/
def rNine : ℚ := (10 ^ 18 + 1) / (2 * 10 ^ 18)

/-- State-passing reading of `array_to_dirac_notation`: the pair is (return
value, the caller's array after the call).  Line 18's numpy true divide
allocates a fresh array and only rebinds the local name, so the caller's array
is returned unchanged. -/
def array_to_dirac_notation_fr (v : List Cq) (r : ℚ) : Str × List Cq :=
  ( array_to_dirac_notation v r, v)

/-- State-passing reading of `array_to_dirac_latex`: it only reads `v` through
`array_to_dirac_notation`, which does not write into it. -/
def array_to_dirac_latex_fr (v : List Cq) (r : ℚ) : Math × List Cq :=
  (array_to_dirac_latex v r, v)

/-- State-passing reading of `array_to_matrix_latex`: `reshape` builds a new
(view) structure and no element of `v` is written. -/
def array_to_matrix_latex_fr (cstr : Cq → Str) (v : List Cq) : Math × List Cq :=
  (array_to_matrix_latex cstr v, v)

/-- State-passing reading of `array_to_dirac_and_matrix_latex`: both parts read
`v` without writing into it. -/
def array_to_dirac_and_matrix_latex_fr (cstr : Cq → Str) (v : List Cq) (r : ℚ) :
    Latex × List Cq :=
  (array_to_dirac_and_matrix_latex cstr v r, v)

/-! Helper lemmas. -/

/-- The dirac accumulation loop equals the flattened list of separator-suffixed
terms of the qualifying entries. -/
theorem dirac_fold_eq (nq : ℕ) (l : List (ℕ × Cq)) (acc : Str) :
    l.foldl
      (fun acc p =>
        if threshSq < magSq p.2 then acc ++ (diracTerm nq p ++ str " + ") else acc) acc
      = acc ++ ((l.filter (fun p => decide (threshSq < magSq p.2))).map
          (fun p => diracTerm nq p ++ str " + ")).flatten := by
  induction l generalizing acc with
  | nil => simp
  | cons x xs ih =>
    by_cases h : threshSq < magSq x.2
    · simp [h, ih, List.append_assoc]
    · simp [h, ih]

/-- The row accumulation loop of `matrix_to_latex` equals the flattened list of
rendered rows. -/
theorem matrix_fold_eq {α : Type} (toStr : α → Str) (l : List (List α)) (acc : Str) :
    l.foldl
      (fun acc row => acc ++ List.intercalate (str " & ") (row.map toStr) ++ str " \\\\\n") acc
      = acc ++ (l.map
          (fun row => List.intercalate (str " & ") (row.map toStr) ++ str " \\\\\n")).flatten := by
  induction l generalizing acc with
  | nil => simp
  | cons x xs ih =>
    rw [List.foldl_cons, ih]
    simp [List.append_assoc]

/-- Stripping the last three characters undoes appending the separator. -/
theorem strip_append_sep (t : Str) : stripTrailingSep (t ++ str " + ") = t := by
  unfold stripTrailingSep
  rw [List.length_append]
  have h3 : (str " + ").length = 3 := rfl
  rw [h3, Nat.add_sub_cancel]
  exact List.take_left t (str " + ")

/-- Unfolding of `List.intercalate` on a list with at least two elements. -/
theorem intercalate_cons₂ (sep a b : Str) (l : List Str) :
    List.intercalate sep (a :: b :: l) = a ++ sep ++ List.intercalate sep (b :: l) := by
  simp [List.intercalate, List.intersperse_cons_cons, List.append_assoc]

/-- Flattening separator-suffixed terms of a nonempty list yields the
intercalation followed by one trailing separator. -/
theorem flatten_map_append_sep (t : Str) (ts : List Str) :
    ((t :: ts).map (fun u => u ++ str " + ")).flatten
      = List.intercalate (str " + ") (t :: ts) ++ str " + " := by
  induction ts generalizing t with
  | nil => simp [List.intercalate]
  | cons u us ih =>
    rw [List.map_cons, List.flatten_cons, ih u, intercalate_cons₂]
    simp [List.append_assoc]

/-- Stripping the trailing separator from the flattened separator-suffixed terms
yields exactly the separator-joined terms, with no trailing separator. -/
theorem strip_flatten_sep (ts : List Str) :
    stripTrailingSep ((ts.map (fun u => u ++ str " + ")).flatten)
      = List.intercalate (str " + ") ts := by
  cases ts with
  | nil => rfl
  | cons t ts => rw [flatten_map_append_sep, strip_append_sep]

/-- Componentwise division by a scalar divides the squared magnitude by the
squared scalar (also for the degenerate scalar 0, where both sides vanish). -/
theorem magSq_cdivR (c : Cq) (r : ℚ) : magSq (cdivR c r) = magSq c / r ^ 2 := by
  unfold magSq cdivR
  rw [div_mul_div_comm, div_mul_div_comm, div_add_div_same, pow_two]

/-- The fuel-driven base-2 floor logarithm agrees with `Nat.log 2` whenever the
fuel is sufficient. -/
theorem floorLog2Aux_eq_log (fuel n : ℕ) (h : n ≤ fuel) :
    floorLog2Aux fuel n = Nat.log 2 n := by
  induction fuel generalizing n with
  | zero =>
    have hn : n = 0 := by omega
    subst hn
    rw [Nat.log_zero_right]
    rfl
  | succ fuel ih =>
    by_cases h1 : n ≤ 1
    · have : n = 0 ∨ n = 1 := by omega
      rcases this with h2 | h2 <;> subst h2 <;>
        simp [floorLog2Aux, Nat.log_zero_right, Nat.log_one_right]
    · have h2 : 2 ≤ n := by omega
      have hdiv : n / 2 ≤ fuel := by omega
      have hrec : floorLog2Aux (fuel + 1) n = floorLog2Aux fuel (n / 2) + 1 := by
        simp [floorLog2Aux, h1]
      rw [hrec, ih (n / 2) hdiv]
      have h3 := Nat.log_div_base 2 n
      have h4 := Nat.log_pos (b := 2) (by norm_num) h2
      omega

/-- The embedded qubit count agrees with the mathematical floor logarithm. -/
theorem floorLog2_eq_log (n : ℕ) : floorLog2 n = Nat.log 2 n :=
  floorLog2Aux_eq_log n n (Nat.le_refl n)

/-- Membership in the qualifying index list is exactly the threshold test on the
rescaled amplitude at that index. -/
theorem mem_diracTermIndices (v : List Cq) (r : ℚ) (i : ℕ) :
    i ∈ diracTermIndices v r
      ↔ ∃ h : i < v.length, threshSq < magSq (cdivR (v.get ⟨i, h⟩) r) := by
  unfold diracTermIndices
  constructor
  · intro hmem
    rcases List.mem_map.mp hmem with ⟨p, hp, rfl⟩
    rcases List.mem_filter.mp hp with ⟨hpe, hq⟩
    have hget := List.mem_enum_iff_getElem?.mp hpe
    rcases List.getElem?_eq_some.mp hget with ⟨hlt, hgetelem⟩
    have hlt' : p.1 < v.length := by simpa [rescale] using hlt
    refine ⟨hlt', ?_⟩
    have hp2 : p.2 = cdivR (v.get ⟨p.1, hlt'⟩) r := by
      rw [← hgetelem]
      simp [rescale]
    rw [← hp2]
    exact of_decide_eq_true hq
  · rintro ⟨h, hq⟩
    apply List.mem_map.mpr
    refine ⟨(i, cdivR (v.get ⟨i, h⟩) r), ?_, rfl⟩
    apply List.mem_filter.mpr
    constructor
    · apply List.mem_enum_iff_getElem?.mpr
      have hlen : i < (rescale v r).length := by simpa [rescale] using h
      rw [List.getElem?_eq_getElem hlen]
      simp [rescale]
    · exact decide_eq_true hq

/-! Claim theorems. -/

/-- Claim C1: for every non-empty input vector, with `r` the Euclidean norm of
the vector, the Dirac string is exactly the " + "-joined concatenation, in
increasing index order, of one term per rescaled amplitude whose squared
magnitude exceeds `(1e-10)^2`, each term being the 3-decimal formatted
amplitude, then `|`, then the `n`-bit zero-padded binary index with
`n = ⌊log₂ L⌋`, then `⟩`, with no trailing separator. -/
theorem dirac_notation_term_structure (v : List Cq) (r : ℚ)
    (hv : v ≠ []) (hr0 : 0 ≤ r) (hr : r ^ 2 = normSq v) :
    array_to_dirac_notation v r
      = List.intercalate (str " + ")
          ((((rescale v r).enum).filter (fun p => decide (threshSq < magSq p.2))).map
            (fun p => fmtComplex 3 p.2
              ++ '|' :: (binaryPad (Nat.log 2 v.length) p.1 ++ ['⟩']))) := by
  unfold array_to_dirac_notation
  rw [dirac_fold_eq, List.nil_append]
  have hcomp : (fun p : ℕ × Cq => diracTerm (floorLog2 (rescale v r).length) p ++ str " + ")
      = (fun u => u ++ str " + ") ∘ diracTerm (floorLog2 (rescale v r).length) := rfl
  rw [hcomp, ← List.map_map, strip_flatten_sep]
  have hnq : floorLog2 (rescale v r).length = Nat.log 2 v.length := by
    rw [floorLog2_eq_log]
    simp [rescale]
  rw [hnq]
  rfl

/-- Claim C1 witness: the structure theorem instantiated at the unit-norm
concrete vector `[1, 0]` with norm 1. -/
theorem dirac_notation_term_structure_witness :
    [(⟨1, 0⟩ : Cq), ⟨0, 0⟩] ≠ []
      ∧ (0 : ℚ) ≤ 1 ∧ (1 : ℚ) ^ 2 = normSq [(⟨1, 0⟩ : Cq), ⟨0, 0⟩]
      ∧ array_to_dirac_notation [(⟨1, 0⟩ : Cq), ⟨0, 0⟩] 1
        = List.intercalate (str " + ")
            ((((rescale [(⟨1, 0⟩ : Cq), ⟨0, 0⟩] 1).enum).filter
                (fun p => decide (threshSq < magSq p.2))).map
              (fun p => fmtComplex 3 p.2
                ++ '|' :: (binaryPad (Nat.log 2 ([(⟨1, 0⟩ : Cq), ⟨0, 0⟩]).length) p.1
                  ++ ['⟩']))) :=
  ⟨by decide, by norm_num, by with_unfolding_all rfl,
    dirac_notation_term_structure [⟨1, 0⟩, ⟨0, 0⟩] 1 (by decide) (by norm_num)
      (by with_unfolding_all rfl)⟩

/-- Claim C2: `complex_matrix_to_string` applies, elementwise and
shape-preservingly, exactly the specification's 4-decimal formatting table, and
on the documented example it produces the documented strings (including the
capital `I` in the negative-imaginary branch). -/
theorem complex_matrix_to_string_spec :
    (∀ m : List (List Cq),
        complex_matrix_to_string m = m.map (fun row => row.map specComplexLabel))
      ∧ complex_matrix_to_string [[⟨0, 0⟩, ⟨1, 2⟩], [⟨3, -4⟩, ⟨0, 5⟩]]
        = [[str "0", str "1.0000 + 2.0000i"], [str "3.0000 - 4.0000I", str "5.0000i"]] := by
  constructor
  · intro m
    have h : ∀ x : Cq, format_complex_number x = specComplexLabel x := by
      intro x
      unfold format_complex_number specComplexLabel
      split_ifs <;> first | rfl | tauto
    simp [complex_matrix_to_string, h]
  · with_unfolding_all rfl

/-- Claim C3 counterexample: on the 2-qubit basis state `e₀` (whose norm is
exactly 1) the code does not return "1.000+0.000i|00⟩": Python formats the
complex amplitude with the imaginary-unit suffix `j`, not `i`. -/
theorem basis_state_i_suffix_cex :
    normSq e0 = 1 ∧ array_to_dirac_notation e0 1 ≠ str "1.000+0.000i|00⟩" := by
  constructor
  · with_unfolding_all rfl
  · with_unfolding_all decide

/-- Claim C3 (amended): on every unit-norm 2-qubit basis state `eᵢ`,
`array_to_dirac_notation` returns exactly "1.000+0.000j|b⟩" where `b` is the
2-bit binary representation of `i` and `j` is Python's imaginary-unit suffix. -/
theorem basis_state_dirac_terms :
    (normSq e0 = 1 ∧ array_to_dirac_notation e0 1 = str "1.000+0.000j|00⟩")
      ∧ (normSq e1 = 1 ∧ array_to_dirac_notation e1 1 = str "1.000+0.000j|01⟩")
      ∧ (normSq e2 = 1 ∧ array_to_dirac_notation e2 1 = str "1.000+0.000j|10⟩")
      ∧ (normSq e3 = 1 ∧ array_to_dirac_notation e3 1 = str "1.000+0.000j|11⟩") := by
  refine ⟨⟨?_, ?_⟩, ⟨?_, ?_⟩, ⟨?_, ?_⟩, ⟨?_, ?_⟩⟩ <;> with_unfolding_all rfl

/-- Claim C4: with `r` the norm of the input, an amplitude of magnitude exactly
`1e-11` (squared `1e-22`) receives no term in the notation whenever `r ≥ 1/10`
(in particular in the claim's otherwise-unit-norm scenario, where `r ≈ 1`),
while an amplitude of magnitude exactly `1e-9` (squared `1e-18`) receives a term
whenever `r ≤ 5`. -/
theorem dirac_threshold_filter (v : List Cq) (r : ℚ) (i : ℕ) (hi : i < v.length)
    (hr0 : 0 < r) (hr : r ^ 2 = normSq v) :
    (magSq (v.get ⟨i, hi⟩) = 1 / 10 ^ 22 → 1 / 10 ≤ r → i ∉ diracTermIndices v r)
      ∧ (magSq (v.get ⟨i, hi⟩) = 1 / 10 ^ 18 → r ≤ 5 → i ∈ diracTermIndices v r) := by
  constructor
  · intro hm hrb hmem
    rcases (mem_diracTermIndices v r i).mp hmem with ⟨h, hq⟩
    have hgm : magSq (v.get ⟨i, h⟩) = 1 / 10 ^ 22 := hm
    rw [magSq_cdivR, hgm] at hq
    unfold threshSq at hq
    have hr2 : (1 : ℚ) / 100 ≤ r ^ 2 := by nlinarith
    have hpos : (0 : ℚ) < r ^ 2 := pow_pos hr0 2
    have hle : (1 : ℚ) / 10 ^ 22 / r ^ 2 ≤ 1 / 10 ^ 20 := by
      rw [div_le_iff₀ hpos]
      nlinarith
    linarith
  · intro hm hrb
    apply (mem_diracTermIndices v r i).mpr
    refine ⟨hi, ?_⟩
    rw [magSq_cdivR, hm]
    unfold threshSq
    have hpos : (0 : ℚ) < r ^ 2 := pow_pos hr0 2
    rw [lt_div_iff₀ hpos]
    have h25 : r ^ 2 ≤ 25 := by nlinarith
    nlinarith

/-- Claim C4 witness: the filter theorem applied to two concrete vectors of
rational norm about 1/2, one holding an amplitude of magnitude exactly 1e-11
(index 1 excluded), one of magnitude exactly 1e-9 (index 1 included). -/
theorem dirac_threshold_filter_witness :
    ((1 : ℕ) < vEleven.length ∧ (0 : ℚ) < rEleven ∧ rEleven ^ 2 = normSq vEleven
      ∧ 1 ∉ diracTermIndices vEleven rEleven)
      ∧ ((1 : ℕ) < vNine.length ∧ (0 : ℚ) < rNine ∧ rNine ^ 2 = normSq vNine
        ∧ 1 ∈ diracTermIndices vNine rNine) := by
  constructor
  · refine ⟨by decide, by with_unfolding_all decide, by with_unfolding_all rfl, ?_⟩
    exact (dirac_threshold_filter vEleven rEleven 1 (by decide)
        (by with_unfolding_all decide) (by with_unfolding_all rfl)).1
      (by with_unfolding_all rfl) (by with_unfolding_all decide)
  · refine ⟨by decide, by with_unfolding_all decide, by with_unfolding_all rfl, ?_⟩
    exact (dirac_threshold_filter vNine rNine 1 (by decide)
        (by with_unfolding_all decide) (by with_unfolding_all rfl)).2
      (by with_unfolding_all rfl) (by with_unfolding_all decide)

/-- Claim C5: when no rescaled amplitude passes the threshold test, the Dirac
string is empty, and the clamped slice `s[:-3]` maps every string of at most
three characters to the empty string without failing. -/
theorem dirac_empty_when_negligible (v : List Cq) (r : ℚ)
    (hall : ∀ c ∈ rescale v r, magSq c ≤ threshSq) :
    array_to_dirac_notation v r = []
      ∧ ∀ s : Str, s.length ≤ 3 → stripTrailingSep s = [] := by
  constructor
  · unfold array_to_dirac_notation
    rw [dirac_fold_eq]
    have hnil : ((rescale v r).enum).filter (fun p => decide (threshSq < magSq p.2)) = [] := by
      rw [List.filter_eq_nil_iff]
      intro p hp
      have hget := List.mem_enum_iff_getElem?.mp hp
      have hm : p.2 ∈ rescale v r := List.getElem?_mem hget
      simp only [decide_eq_true_eq]
      exact not_lt.mpr (hall p.2 hm)
    rw [hnil]
    rfl
  · intro s hs
    unfold stripTrailingSep
    have h0 : s.length - 3 = 0 := by omega
    rw [h0, List.take_zero]

/-- Claim C5 witness: the all-zero vector (whose float norm is 0, making every
rescaled amplitude fail the threshold) yields the empty string. -/
theorem dirac_empty_when_negligible_witness :
    (∀ c ∈ rescale [(⟨0, 0⟩ : Cq)] 0, magSq c ≤ threshSq)
      ∧ array_to_dirac_notation [(⟨0, 0⟩ : Cq)] 0 = [] :=
  ⟨by with_unfolding_all decide,
    (dirac_empty_when_negligible [⟨0, 0⟩] 0 (by with_unfolding_all decide)).1⟩

/-- Claim C6: `array_to_matrix_representation` returns an `L × 1` structure:
flattening it restores the input (order and values unchanged), every row is a
singleton, there are `L` rows, and on `[a, b, c]` it returns `[[a],[b],[c]]`. -/
theorem matrix_representation_shape {α : Type} (l : List α) (a b c : α) :
    (array_to_matrix_representation l).flatten = l
      ∧ (∀ row ∈ array_to_matrix_representation l, row.length = 1)
      ∧ (array_to_matrix_representation l).length = l.length
      ∧ array_to_matrix_representation [a, b, c] = [[a], [b], [c]] := by
  refine ⟨?_, ?_, ?_, rfl⟩
  · unfold array_to_matrix_representation
    induction l with
    | nil => rfl
    | cons x xs ih => simpa using ih
  · intro row hrow
    rcases List.mem_map.mp hrow with ⟨x, _, rfl⟩
    rfl
  · simp [array_to_matrix_representation]

/-- Claim C6 witness: the shape theorem instantiated at a concrete list. -/
theorem matrix_representation_shape_witness :
    (array_to_matrix_representation [(1 : ℚ), 2, 3]).flatten = [1, 2, 3]
      ∧ (∀ row ∈ array_to_matrix_representation [(1 : ℚ), 2, 3], row.length = 1)
      ∧ (array_to_matrix_representation [(1 : ℚ), 2, 3]).length = ([(1 : ℚ), 2, 3]).length
      ∧ array_to_matrix_representation [(1 : ℚ), 2, 3] = [[1], [2], [3]] :=
  matrix_representation_shape [(1 : ℚ), 2, 3] 1 2 3

/-- Claim C7: the string payload of `matrix_to_latex` is the leading string,
the opening bracket template, then for each row in order its stringified
elements joined by " & " followed by the row terminator, then the closing
bracket template. -/
theorem matrix_to_latex_payload {α : Type} (toStr : α → Str) (m : List (List α)) (pre : Str) :
    (matrix_to_latex toStr m pre).payload
      = pre ++ str "\\begin{bmatrix}\n"
        ++ (m.map
            (fun row => List.intercalate (str " & ") (row.map toStr) ++ str " \\\\\n")).flatten
        ++ str "\\end{bmatrix}" := by
  unfold matrix_to_latex
  rw [matrix_fold_eq]

/-- Claim C8: in the state-passing reading of the four renderers, the caller's
array after any call is the unchanged input (the normalization of line 18
operates on a freshly allocated rescaled array), and each call returns exactly
the value of the corresponding pure function of the input. -/
theorem renderers_preserve_input (cstr : Cq → Str) (v : List Cq) (r : ℚ) :
    ( array_to_dirac_notation_fr v r).2 = v
      ∧ (array_to_dirac_latex_fr v r).2 = v
      ∧ (array_to_matrix_latex_fr cstr v).2 = v
      ∧ (array_to_dirac_and_matrix_latex_fr cstr v r).2 = v
      ∧ ( array_to_dirac_notation_fr v r).1 = array_to_dirac_notation v r
      ∧ (array_to_dirac_latex_fr v r).1 = array_to_dirac_latex v r
      ∧ (array_to_matrix_latex_fr cstr v).1 = array_to_matrix_latex cstr v
      ∧ (array_to_dirac_and_matrix_latex_fr cstr v r).1
        = array_to_dirac_and_matrix_latex cstr v r :=
  ⟨rfl, rfl, rfl, rfl, rfl, rfl, rfl, rfl⟩

/-- Claim C9: when the input already has unit norm (so its exact Euclidean norm
`r` satisfies `r ≥ 0` and `r² = normSq v = 1`), the rescaling step leaves every
amplitude unchanged — exactly, hence within any floating tolerance. -/
theorem rescale_unit_norm_id (v : List Cq) (r : ℚ)
    (hr0 : 0 ≤ r) (hr : r ^ 2 = normSq v) (h1 : normSq v = 1) :
    rescale v r = v := by
  have hr1 : r = 1 := by
    have h2 : (r - 1) * (r + 1) = 0 := by nlinarith
    rcases mul_eq_zero.mp h2 with h3 | h3
    · linarith
    · linarith
  subst hr1
  have hc : ∀ c : Cq, cdivR c 1 = c := by
    intro c
    simp [cdivR]
  simp [rescale, hc]

/-- Claim C9 witness: rescaling the concrete unit vector `[1]` by its norm 1 is
the identity. -/
theorem rescale_unit_norm_id_witness :
    (0 : ℚ) ≤ 1 ∧ (1 : ℚ) ^ 2 = normSq [(⟨1, 0⟩ : Cq)] ∧ normSq [(⟨1, 0⟩ : Cq)] = 1
      ∧ rescale [(⟨1, 0⟩ : Cq)] 1 = [(⟨1, 0⟩ : Cq)] :=
  ⟨by norm_num, by with_unfolding_all rfl, by with_unfolding_all rfl,
    rescale_unit_norm_id [⟨1, 0⟩] 1 (by norm_num) (by with_unfolding_all rfl)
      (by with_unfolding_all rfl)⟩

/-- Claim C10: on a single-amplitude input whose rescaled amplitude passes the
threshold, the qubit count is `floorLog2 1 = 0`, yet the zero-width zero-padded
binary format still emits the single digit "0", so the result is
`<amplitude>|0⟩` and not `<amplitude>|⟩`. -/
theorem dirac_single_entry (c : Cq) (r : ℚ) (h : threshSq < magSq (cdivR c r)) :
    array_to_dirac_notation [c] r = fmtComplex 3 (cdivR c r) ++ '|' :: '0' :: ['⟩']
      ∧ floorLog2 1 = 0 ∧ binaryPad 0 0 = ['0'] := by
  refine ⟨?_, rfl, rfl⟩
  unfold array_to_dirac_notation
  rw [dirac_fold_eq]
  have h1 : rescale [c] r = [cdivR c r] := rfl
  rw [h1]
  have h2 : ([cdivR c r]).enum = [(0, cdivR c r)] := rfl
  rw [h2]
  have h3 : ([(0, cdivR c r)]).filter (fun p => decide (threshSq < magSq p.2))
      = [(0, cdivR c r)] := by
    simp [List.filter_cons, h]
  rw [h3, List.map_cons, List.map_nil, List.flatten_cons, List.flatten_nil,
    List.append_nil, List.nil_append, strip_append_sep]
  with_unfolding_all rfl

/-- Claim C10 witness: the single-entry theorem at the concrete amplitude 1 with
norm 1. -/
theorem dirac_single_entry_witness :
    threshSq < magSq (cdivR ⟨1, 0⟩ 1)
      ∧ ( array_to_dirac_notation [(⟨1, 0⟩ : Cq)] 1
          = fmtComplex 3 (cdivR ⟨1, 0⟩ 1) ++ '|' :: '0' :: ['⟩']
        ∧ floorLog2 1 = 0 ∧ binaryPad 0 0 = ['0']) :=
  ⟨by with_unfolding_all decide, dirac_single_entry ⟨1, 0⟩ 1 (by with_unfolding_all decide)⟩

end QuantumNotation
